import Mathlib

/-!
Verification of the AR2300 streaming capture pipeline (Rust sources
`src/lib/src/iq.rs`, `src/lib/src/queue.rs`, `src/lib/src/usb.rs`).

Shallow embedding conventions:
* bytes are natural numbers below 256; a buffer is a `List Nat`;
* Rust `u16`/`u32` arithmetic is `Nat` arithmetic with an explicit
  `% 65536` / `% 4294967296` wherever the machine type wraps;
* the `f32` values produced by the decoder are modelled over `ℚ`
  (the recombined 32-bit integer divided by the normalization base);
* fallible operations return `Option`/`Except`; a Rust index panic is
  modelled by `Option.none` (respectively a dedicated result constructor);
* the USB layer is abstracted at the FFI boundary: the outcomes of the
  native calls (`write_bulk`, `libusb_submit_transfer`) are inputs of the
  model, and the model records whether a native call was reached.
-/

namespace AR2300

/-- The error type of the `rusb` crate (`rusb::Error`). -/
inductive RusbError where
  | Io
  | InvalidParam
  | Access
  | NoDevice
  | NotFound
  | Busy
  | Timeout
  | Overflow
  | Pipe
  | Interrupted
  | NoMem
  | NotSupported
  | BadDescriptor
  | Other
deriving DecidableEq

/-- `fn valid_packet(buffer: &[u8]) -> bool { (buffer[1] & 0x01) == 0x01 }`.
`none` models the Rust index panic when the buffer has fewer than 2 bytes. -/
def valid_packet (buffer : List Nat) : Option Bool :=
  match buffer.get? 1 with
  | some b => some ((b &&& 0x01) == 0x01)
  | none => none

/-- The scanning loop of `find_packet`:
`while buf.len() > 8 && !valid_packet(buf) { buf = &buf[1..]; }`.
Inside the loop the length is above 8, so `valid_packet` cannot panic there
and `valid_packet buf = some false` is exactly the Rust loop condition. -/
def find_packet_go : List Nat → List Nat
  | [] => []
  | b :: rest =>
    if 8 < (b :: rest).length ∧ valid_packet (b :: rest) = some false then
      find_packet_go rest
    else
      b :: rest

/-- Result of `find_packet`: the suffix of the buffer at the synchronized
offset, the `bail!("Packet not found")` error, or an index panic raised by
`valid_packet` on a buffer shorter than 2 bytes. -/
inductive FindResult where
  | ok (buf : List Nat)
  | notFound
  | outOfBounds
deriving DecidableEq

/-- `fn find_packet(buffer: &[u8]) -> Result<&[u8], Box<dyn Error>>`:
runs the scanning loop, then returns the remaining suffix if it starts with
a valid framing marker and the not-found error otherwise. -/
def find_packet (buffer : List Nat) : FindResult :=
  let buf := find_packet_go buffer
  match valid_packet buf with
  | some true => .ok buf
  | some false => .notFound
  | none => .outOfBounds

/-- `LittleEndian::read_u32` over the first four bytes of a slice. -/
def read_u32 (b : List Nat) : Nat :=
  b.getD 0 0 ||| (b.getD 1 0 <<< 8) ||| (b.getD 2 0 <<< 16) ||| (b.getD 3 0 <<< 24)

/-- `const BASE: f32 = 2f32 * 2147483648.0f32` (exactly `2 ^ 32`). -/
def BASE : ℚ := 2 * 2147483648

/-- The integer part of the closure `f` inside `read_packet`: the
recombined unsigned 32-bit word before the conversion to `f32`.
`n16[0]`/`n16[1]` are `u16` values, hence the explicit `% 65536`. -/
def fWord (n : Nat) : Nat :=
  let n0 := (n >>> 16) % 65536
  let n1 := n % 65536
  let n1 := if (n0 &&& 0x8000) == 0x8000 then n1 ||| 0x0001 else n1 &&& 0xfffe
  let n0 := (n0 <<< 1) % 65536
  (n0 <<< 16) ||| n1

/-- The closure `f` inside `read_packet`: recombined word divided by `BASE`. -/
def f (n : Nat) : ℚ :=
  (fWord n : ℚ) / BASE

/-- `fn read_packet(packet: &[u8]) -> (f32, f32)`: little-endian words at
byte ranges `0..4` and `4..8`, each decoded by `f`. -/
def read_packet (packet : List Nat) : ℚ × ℚ :=
  let i := read_u32 (packet.take 4)
  let q := read_u32 ((packet.drop 4).take 4)
  (f i, f q)

/-- Fuel-indexed model of the Rust slice iterator `chunks(8)`; the fuel is
only a structural-recursion device, `chunks8` below instantiates it with
the buffer length, which always suffices. -/
def chunks8Go : Nat → List Nat → List (List Nat)
  | 0, _ => []
  | _, [] => []
  | fuel + 1, l => l.take 8 :: chunks8Go fuel (l.drop 8)

/-- Rust `slice::chunks(8)`: consecutive 8-byte chunks, the last possibly
shorter. -/
def chunks8 (l : List Nat) : List (List Nat) :=
  chunks8Go l.length l

/-- The decoding loop of `Receiver::callback`:
`for packet in buf.chunks(8) { if packet.len() == 8 && valid_packet(packet)
{ self.queue.enqueue(read_packet(packet)); } }`. -/
def decode_chunks (buf : List Nat) : List (ℚ × ℚ) :=
  (chunks8 buf).filterMap fun packet =>
    if packet.length == 8 && (valid_packet packet == some true) then
      some (read_packet packet)
    else
      none

/-- State of the shared objects of a `Receiver` (src/lib/src/iq.rs): the
atomic `running` flag, the atomic `skip_packet` flag, and the contents of
the sample queue (FIFO order, front first). -/
structure Receiver where
  running : Bool
  skip_packet : Bool
  queue : List (ℚ × ℚ)
deriving DecidableEq

/-- `Receiver::callback` (the `TransferCallback` impl): classifies the
transfer result (`Ok` and `Err(rusb::Error::Other)` count as success, any
other error logs and clears `running`), on success consumes the
`skip_packet` flag and, when it was already clear, synchronizes on the
buffer and enqueues one sample per valid 8-byte chunk; returns the new
state together with the continue decision `self.running.load()`.
`none` models the index panic of `find_packet` on a buffer shorter than
2 bytes. -/
def Receiver.callback (s : Receiver) (result : Except RusbError Unit)
    (buffer : List Nat) : Option (Receiver × Bool) :=
  let success : Bool :=
    match result with
    | .ok _ => true
    | .error .Other => true
    | .error _ => false
  let s := if success then s else { s with running := false }
  if success then
    let skip := s.skip_packet
    let s := { s with skip_packet := false }
    if skip then
      some (s, s.running)
    else
      match find_packet buffer with
      | .ok buf => some ({ s with queue := s.queue ++ decode_chunks buf }, s.running)
      | .notFound => some (s, s.running)
      | .outOfBounds => none
  else
    some (s, s.running)

/-- `const START_CAPTURE: [u8; 6]`. -/
def START_CAPTURE : List Nat := [0x5a, 0xa5, 0x00, 0x02, 0x41, 0x53]

/-- `const END_CAPTURE: [u8; 6]`. -/
def END_CAPTURE : List Nat := [0x5a, 0xa5, 0x00, 0x02, 0x41, 0x45]

/-- The three `bail!`/success outcomes of `Receiver::start`. -/
inductive StartError where
  | alreadyRunning
  | writeFailed
  | submitFailed
deriving DecidableEq

/-- `Receiver::start`: gated by `compare_exchange(false, true)` on the
`running` flag; on a successful swap it writes `START_CAPTURE` to the
control endpoint and then submits the isochronous transfer. `writeResult`
and `submitResult` abstract the outcomes of the native `write_bulk` and
`submit_iso` calls; the returned list is the trace of command byte
sequences written (attempted) on the control endpoint by this call.
The `running` flag is not rolled back on failure. -/
def Receiver.start (s : Receiver)
    (writeResult submitResult : Except RusbError Unit) :
    Receiver × Except StartError Unit × List (List Nat) :=
  if s.running = false then
    let s := { s with running := true }
    match writeResult with
    | .ok _ =>
      match submitResult with
      | .ok _ => (s, .ok (), [START_CAPTURE])
      | .error _ => (s, .error .submitFailed, [START_CAPTURE])
    | .error _ => (s, .error .writeFailed, [START_CAPTURE])
  else
    (s, .error .alreadyRunning, [])

namespace Queue

/-- State of `Queue<T>` (src/lib/src/queue.rs): the atomic `closed` flag
and the contents of the `VecDeque` (front first). -/
structure State (α : Type) where
  closed : Bool
  items : List α
deriving DecidableEq

/-- `Queue::enqueue`: pushes at the back; the returned Bool records
whether `cv.notify_all()` ran (only when the deque was empty before the
push). -/
def enqueue {α : Type} (s : State α) (v : α) : State α × Bool :=
  ({ s with items := s.items ++ [v] }, s.items.isEmpty)

/-- The body of `Queue::dequeue` once `wait_timeout_while` returns:
`queue.pop_front()`, yielding the front item (if any) and the new state. -/
def dequeue {α : Type} (s : State α) : Option α × State α :=
  (s.items.head?, { s with items := s.items.tail })

/-- The wait predicate of `Queue::dequeue`: the consumer keeps waiting
while `!self.is_closed() && queue.is_empty()`. -/
def dequeue_waits {α : Type} (s : State α) : Bool :=
  !s.closed && s.items.isEmpty

/-- `Queue::close`: `self.closed.swap(true, Ordering::Relaxed)` followed by
a log line. The returned Bool records whether any condvar notification was
performed by `close` (the source performs none; waking a consumer blocked
in `wait_timeout_while` before its timeout requires one). -/
def close {α : Type} (s : State α) : State α × Bool :=
  ({ s with closed := true }, false)

/-- A sequence of `enqueue` calls, in list order. -/
def enqueueAll {α : Type} (s : State α) (l : List α) : State α :=
  l.foldl (fun s v => (enqueue s v).1) s

/-- `n` successive `dequeue` calls, returning the observed results in
order. -/
def dequeueN {α : Type} : State α → Nat → List (Option α) × State α
  | s, 0 => ([], s)
  | s, n + 1 =>
    let (v, s1) := dequeue s
    let (vs, s2) := dequeueN s1 n
    (v :: vs, s2)

end Queue

namespace Usb

/-- `LIBUSB_ENDPOINT_DIR_MASK`. -/
def LIBUSB_ENDPOINT_DIR_MASK : Nat := 0x80

/-- `LIBUSB_ENDPOINT_IN`. -/
def LIBUSB_ENDPOINT_IN : Nat := 0x80

/-- `submit_iso` (src/lib/src/usb.rs) up to the FFI boundary: the two
precondition checks, then the native `libusb_alloc_transfer` /
`libusb_fill_iso_transfer` / `libusb_submit_transfer` sequence, whose
outcome is abstracted by `nativeResult`. `buffer_len` is the length of the
slice returned by `callback.buffer()`. The returned Bool records whether
any native libusb call was reached. -/
def submit_iso (endpoint num_packets packet_len buffer_len : Nat)
    (nativeResult : Except RusbError Unit) : Except RusbError Unit × Bool :=
  if endpoint &&& LIBUSB_ENDPOINT_DIR_MASK ≠ LIBUSB_ENDPOINT_IN then
    (.error .InvalidParam, false)
  else if buffer_len < packet_len * num_packets + packet_len then
    (.error .InvalidParam, false)
  else
    (nativeResult, true)

end Usb

/-! ### Statement-side definitions

The following definitions render the words of the specification (they are
compared against the source-derived definitions above; they are not part
of the embedding of the code). -/

/-- The framing-marker test the spec describes at byte offset `o` of a
buffer: the byte at index `o + 1` has bit 0 set. -/
def markerAt (buffer : List Nat) (o : Nat) : Bool :=
  (buffer.getD (o + 1) 0) % 2 == 1

/-- Modelled from the spec words (§4.2, decode step), for the refinement
claim about `read_packet`: split the 32-bit word into high and low 16-bit
halves; if bit 15 of the high half is set force bit 0 of the low half to
1, else force it to 0; shift the high half left by 1; recombine as
`(high <<< 16) ||| low` interpreted as an unsigned 32-bit integer; divide
by `2 * 2 ^ 31`. -/
def fSpec (n : Nat) : ℚ :=
  let high := n >>> 16
  let low := n % 2 ^ 16
  let low := if high.testBit 15 then low ||| 1 else low &&& 0xfffe
  let high := high <<< 1
  ((((high <<< 16) ||| low) % 2 ^ 32 : Nat) : ℚ) / (2 * 2 ^ 31)

/-- Modelled from the spec words: the little-endian 32-bit word of a
buffer at byte offset `off`. -/
def wordLE (packet : List Nat) (off : Nat) : Nat :=
  packet.getD off 0 + 256 * packet.getD (off + 1) 0 +
    65536 * packet.getD (off + 2) 0 + 16777216 * packet.getD (off + 3) 0

/-- Modelled from the spec words: the decoder result the spec describes
for one 8-byte chunk, `(f(I), f(Q))` with `I`/`Q` the little-endian words
at byte offsets 0 and 4. -/
def read_packet_spec (packet : List Nat) : ℚ × ℚ :=
  (fSpec (wordLE packet 0), fSpec (wordLE packet 4))

/-! ### Bit-arithmetic helpers -/

/-- Disjoint or is addition: a left-shifted value or-ed with a small value. -/
lemma shiftLeft_or_small {b : Nat} (a i : Nat) (hb : b < 2 ^ i) :
    (a <<< i) ||| b = 2 ^ i * a + b := by
  rw [Nat.shiftLeft_eq, Nat.mul_comm a (2 ^ i)]
  exact (Nat.mul_add_lt_is_or hb a).symm

/-- The test `(a &&& 0x8000) == 0x8000` is the test of bit 15. -/
lemma and_8000_eq_testBit (a : Nat) : ((a &&& 0x8000) == 0x8000) = a.testBit 15 := by
  have h := Nat.and_two_pow a 15
  norm_num at h
  cases hb : a.testBit 15 <;> rw [hb] at h <;> simp at h <;> simp [h]

/-- Every byte read through `getD` with default 0 from a byte buffer is
below 256. -/
lemma getD_lt_256 {l : List Nat} (hl : ∀ x ∈ l, x < 256) (i : Nat) :
    l.getD i 0 < 256 := by
  rw [List.getD_eq_getElem?_getD]
  rcases h : l[i]? with _ | x
  · simp
  · obtain ⟨hlt, rfl⟩ := List.getElem?_eq_some_iff.mp h
    simpa using hl _ (List.getElem_mem hlt)

/-- The recombined word of the decoder closure is an unsigned 32-bit
value. -/
lemma fWord_lt (n : Nat) : fWord n < 2 ^ 32 := by
  simp only [fWord]
  set b : Nat := if ((((n >>> 16) % 65536) &&& 0x8000) == 0x8000) then
      (n % 65536) ||| 0x0001 else (n % 65536) &&& 0xfffe with hbdef
  have h1 : b < 2 ^ 16 := by
    rw [hbdef]
    split
    · exact Nat.or_lt_two_pow (by omega) (by norm_num)
    · exact Nat.and_lt_two_pow _ (by norm_num)
  rw [shiftLeft_or_small _ 16 h1]
  have h0 : ((((n >>> 16) % 65536) <<< 1) % 65536) < 65536 := Nat.mod_lt _ (by norm_num)
  omega

/-- Each decoded component is in the interval `[0, 1)`. -/
lemma f_nonneg_lt_one (n : Nat) : 0 ≤ f n ∧ f n < 1 := by
  unfold f
  constructor
  · exact div_nonneg (Nat.cast_nonneg _) (by norm_num [BASE])
  · rw [div_lt_one (by norm_num [BASE])]
    have h := fWord_lt n
    have hB : BASE = ((2 ^ 32 : ℕ) : ℚ) := by norm_num [BASE]
    rw [hB]
    exact_mod_cast h

/-- Wrapping the shifted high half at 16 bits before the final
recombination agrees with recombining first and wrapping at 32 bits. -/
lemma recombine_mod {a b : Nat} (hb : b < 2 ^ 16) :
    ((a <<< 1) % 65536) <<< 16 ||| b = ((a <<< 1) <<< 16 ||| b) % 2 ^ 32 := by
  rw [shiftLeft_or_small _ 16 hb, shiftLeft_or_small _ 16 hb, Nat.shiftLeft_eq a 1]
  omega

/-- The source closure agrees with the spec-side decode on every unsigned
32-bit word. -/
lemma f_eq_fSpec {n : Nat} (hn : n < 2 ^ 32) : f n = fSpec n := by
  simp only [f, fSpec, fWord, BASE]
  have h16 : n >>> 16 = n / 2 ^ 16 := Nat.shiftRight_eq_div_pow n 16
  have ha : n >>> 16 < 65536 := by rw [h16]; norm_num; omega
  have hmod : (n >>> 16) % 65536 = n >>> 16 := Nat.mod_eq_of_lt ha
  have h216 : n % 2 ^ 16 = n % 65536 := by norm_num
  rw [hmod, and_8000_eq_testBit, h216]
  set b : Nat := if (n >>> 16).testBit 15 then (n % 65536) ||| 0x0001
    else (n % 65536) &&& 0xfffe with hbdef
  have hb : b < 2 ^ 16 := by
    rw [hbdef]
    split
    · exact Nat.or_lt_two_pow (by omega) (by norm_num)
    · exact Nat.and_lt_two_pow _ (by norm_num)
  rw [recombine_mod hb]
  norm_num

/-- `read_u32` over the 4-byte window at offset `off` of a byte buffer is
the little-endian word the spec describes. -/
lemma read_u32_window (l : List Nat) (off : Nat) (hl : ∀ x ∈ l, x < 256) :
    read_u32 ((l.drop off).take 4) = wordLE l off := by
  have g : ∀ i, i < 4 → ((l.drop off).take 4).getD i 0 = l.getD (off + i) 0 := by
    intro i hi
    rw [List.getD_eq_getElem?_getD, List.getD_eq_getElem?_getD,
      List.getElem?_take_of_lt hi, List.getElem?_drop]
  unfold read_u32 wordLE
  rw [g 0 (by norm_num), g 1 (by norm_num), g 2 (by norm_num), g 3 (by norm_num)]
  simp only [Nat.add_zero]
  have h0 := getD_lt_256 hl off
  have h1 := getD_lt_256 hl (off + 1)
  have h2 := getD_lt_256 hl (off + 2)
  have h3 := getD_lt_256 hl (off + 3)
  set B0 := l.getD off 0
  set B1 := l.getD (off + 1) 0
  set B2 := l.getD (off + 2) 0
  set B3 := l.getD (off + 3) 0
  rw [Nat.or_comm B0 (B1 <<< 8), shiftLeft_or_small B1 8 (by omega)]
  rw [Nat.or_comm _ (B2 <<< 16), shiftLeft_or_small B2 16 (by omega)]
  rw [Nat.or_comm _ (B3 <<< 24), shiftLeft_or_small B3 24 (by omega)]
  omega

/-- `wordLE` of a byte buffer is an unsigned 32-bit value. -/
lemma wordLE_lt (l : List Nat) (off : Nat) (hl : ∀ x ∈ l, x < 256) :
    wordLE l off < 2 ^ 32 := by
  have h0 := getD_lt_256 hl off
  have h1 := getD_lt_256 hl (off + 1)
  have h2 := getD_lt_256 hl (off + 2)
  have h3 := getD_lt_256 hl (off + 3)
  unfold wordLE
  omega

/-- C1: for every 8-byte chunk of bytes, `read_packet` returns the pair
`(f(I), f(Q))` with `I` and `Q` the little-endian 32-bit words at byte
offsets 0 and 4, and `f` the spec transform: split into 16-bit halves,
force bit 0 of the low half to the value of bit 15 of the high half,
shift the high half left by 1, recombine as `(high <<< 16) ||| low` as an
unsigned 32-bit integer, divide by `2 * 2 ^ 31`. -/
theorem C1_read_packet_decodes_per_spec (packet : List Nat)
    (_hlen : packet.length = 8) (hbytes : ∀ b ∈ packet, b < 256) :
    read_packet packet = read_packet_spec packet := by
  have h1 : read_u32 (packet.take 4) = wordLE packet 0 := by
    rw [show packet.take 4 = (packet.drop 0).take 4 by rw [List.drop_zero]]
    exact read_u32_window packet 0 hbytes
  have h2 : read_u32 ((packet.drop 4).take 4) = wordLE packet 4 :=
    read_u32_window packet 4 hbytes
  simp only [read_packet, read_packet_spec, h1, h2]
  rw [f_eq_fSpec (wordLE_lt packet 0 hbytes), f_eq_fSpec (wordLE_lt packet 4 hbytes)]

/-- Witness for C1 at the chunk `[255, 255, 255, 127, 255, 255, 255, 127]`. -/
theorem C1_witness :
    (([255, 255, 255, 127, 255, 255, 255, 127] : List Nat).length = 8 ∧
      ∀ b ∈ ([255, 255, 255, 127, 255, 255, 255, 127] : List Nat), b < 256) ∧
    read_packet [255, 255, 255, 127, 255, 255, 255, 127] =
      read_packet_spec [255, 255, 255, 127, 255, 255, 255, 127] :=
  ⟨⟨by decide, by decide⟩,
    C1_read_packet_decodes_per_spec _ (by decide) (by decide)⟩

/-- C10: both components of every decoded sample lie in `[0, 1)`: the
recombined word is interpreted as an unsigned 32-bit integer before the
division by `2 * 2 ^ 31`, so a decoded sample is never negative. -/
theorem C10_sample_range (packet : List Nat) :
    (0 ≤ (read_packet packet).1 ∧ (read_packet packet).1 < 1) ∧
    (0 ≤ (read_packet packet).2 ∧ (read_packet packet).2 < 1) :=
  ⟨f_nonneg_lt_one _, f_nonneg_lt_one _⟩

/-! ### Synchronization (`find_packet`) -/

lemma valid_packet_eq_markerAt {l : List Nat} (h : 2 ≤ l.length) :
    valid_packet l = some (markerAt l 0) := by
  rcases l with _ | ⟨a, _ | ⟨b, t⟩⟩
  · simp at h
  · simp at h
  · simp [valid_packet, markerAt, List.getD, Nat.and_one_is_mod]

lemma markerAt_cons (b : Nat) (rest : List Nat) (o : Nat) :
    markerAt (b :: rest) (o + 1) = markerAt rest o := by
  simp [markerAt, List.getD]

/-- The scanning loop never shortens the buffer below 2 bytes when it
starts with at least 2. -/
lemma find_packet_go_length : ∀ {buf : List Nat}, 2 ≤ buf.length →
    2 ≤ (find_packet_go buf).length := by
  intro buf
  induction buf with
  | nil => intro h; simp at h
  | cons b rest ih =>
    intro h
    simp only [find_packet_go]
    split
    · rename_i hcond
      exact ih (by simp at hcond ⊢; omega)
    · exact h

/-- Unfolding equation for `find_packet`. -/
lemma find_packet_eq (buffer : List Nat) :
    find_packet buffer =
      match valid_packet (find_packet_go buffer) with
      | some true => .ok (find_packet_go buffer)
      | some false => .notFound
      | none => .outOfBounds := rfl

/-- When no position with at least 8 bytes remaining carries the framing
marker, the scan ends in the not-found error. -/
lemma find_packet_of_no_marker : ∀ (buf : List Nat), 8 ≤ buf.length →
    (∀ o, o + 8 ≤ buf.length → markerAt buf o = false) →
    find_packet buf = .notFound := by
  intro buf
  induction buf with
  | nil => intro h; simp at h
  | cons b rest ih =>
    intro h8 h
    have h2 : 2 ≤ (b :: rest).length := by omega
    have hm0 : markerAt (b :: rest) 0 = false := h 0 (by omega)
    have hv : valid_packet (b :: rest) = some false := by
      rw [valid_packet_eq_markerAt h2, hm0]
    by_cases hlen : 8 < (b :: rest).length
    · have hgo : find_packet_go (b :: rest) = find_packet_go rest := by
        simp only [find_packet_go]
        rw [if_pos ⟨hlen, hv⟩]
      have ihr := ih (by simp at hlen ⊢; omega) (fun o ho => by
        have := h (o + 1) (by simp at ho ⊢; omega)
        rwa [markerAt_cons] at this)
      rw [find_packet_eq] at ihr ⊢
      rw [hgo]
      exact ihr
    · have hgo : find_packet_go (b :: rest) = b :: rest := by
        simp only [find_packet_go]
        rw [if_neg]
        intro hc
        exact hlen hc.1
      rw [find_packet_eq, hgo, hv]

/-- The scan returns the suffix at the first marked position among the
positions with at least 8 bytes remaining. -/
lemma find_packet_of_first_marker : ∀ (buf : List Nat) (o : Nat),
    o + 8 ≤ buf.length → markerAt buf o = true →
    (∀ j, j < o → markerAt buf j = false) →
    find_packet buf = .ok (buf.drop o) := by
  intro buf
  induction buf with
  | nil => intro o ho; simp at ho
  | cons b rest ih =>
    intro o ho hm hmin
    rcases o with _ | k
    · have hv : valid_packet (b :: rest) = some true := by
        rw [valid_packet_eq_markerAt (by omega), hm]
      have hgo : find_packet_go (b :: rest) = b :: rest := by
        simp only [find_packet_go]
        rw [if_neg]
        intro hc
        rw [hv] at hc
        exact absurd hc.2 (by simp)
      rw [find_packet_eq, hgo, hv, List.drop_zero]
    · have hm0 : markerAt (b :: rest) 0 = false := hmin 0 (by omega)
      have hv : valid_packet (b :: rest) = some false := by
        rw [valid_packet_eq_markerAt (by omega), hm0]
      have hlen : 8 < (b :: rest).length := by simp at ho ⊢; omega
      have hgo : find_packet_go (b :: rest) = find_packet_go rest := by
        simp only [find_packet_go]
        rw [if_pos ⟨hlen, hv⟩]
      have ihr := ih k (by simp at ho ⊢; omega)
        (by rw [← markerAt_cons b rest k]; exact hm)
        (fun j hj => by
          rw [← markerAt_cons b rest j]
          exact hmin (j + 1) (by omega))
      rw [find_packet_eq] at ihr ⊢
      rw [hgo]
      simpa using ihr

/-- C2 (amended): for every buffer holding at least 8 bytes, `find_packet`
returns the suffix at the first (smallest) offset whose byte at index
`offset + 1` has bit 0 set, scanning exactly the positions with at least
8 bytes remaining, and fails with the not-found error when no such
position exists. (Buffers shorter than 8 bytes are excluded: there the
source accepts offset 0 despite fewer than 8 bytes remaining, see the
counterexample.) -/
theorem C2_find_packet_first_marker (buffer : List Nat)
    (h8 : 8 ≤ buffer.length) :
    (∀ o, o + 8 ≤ buffer.length → markerAt buffer o = true →
      (∀ j, j < o → markerAt buffer j = false) →
      find_packet buffer = .ok (buffer.drop o)) ∧
    ((∀ o, o + 8 ≤ buffer.length → markerAt buffer o = false) →
      find_packet buffer = .notFound) :=
  ⟨fun o ho hm hmin => find_packet_of_first_marker buffer o ho hm hmin,
    fun h => find_packet_of_no_marker buffer h8 h⟩

/-- Witness for C2 at a 9-byte buffer whose first marked scan position is
offset 1. -/
theorem C2_witness :
    8 ≤ ([0, 0, 1, 0, 0, 0, 0, 0, 0] : List Nat).length ∧
    find_packet [0, 0, 1, 0, 0, 0, 0, 0, 0] =
      .ok (([0, 0, 1, 0, 0, 0, 0, 0, 0] : List Nat).drop 1) :=
  ⟨by decide,
    (C2_find_packet_first_marker [0, 0, 1, 0, 0, 0, 0, 0, 0] (by decide)).1
      1 (by decide) (by decide) (by decide)⟩

/-- Counterexample for C2 as stated: a 7-byte buffer has no position with
8 bytes remaining, so the claim demands the not-found error, but the
source accepts offset 0 (its byte at index 1 has bit 0 set) and returns
it. -/
theorem C2_counterexample :
    find_packet [0, 1, 0, 0, 0, 0, 0] = .ok [0, 1, 0, 0, 0, 0, 0] ∧
    ([0, 1, 0, 0, 0, 0, 0] : List Nat).length < 8 := by
  constructor
  · decide
  · decide

/-- C9: `valid_packet` reads the byte at index 1 unconditionally, so
`find_packet` panics (out-of-bounds index) on buffers of length 0 or 1,
and returns normally (ok or not-found) on every buffer of length at
least 2. -/
theorem C9_find_packet_panic_bounds (buffer : List Nat) :
    (buffer.length < 2 → find_packet buffer = .outOfBounds) ∧
    (2 ≤ buffer.length → find_packet buffer ≠ .outOfBounds) := by
  constructor
  · intro h
    rcases buffer with _ | ⟨a, _ | ⟨b, t⟩⟩
    · rfl
    · rfl
    · simp at h
      omega
  · intro h
    have hlen : 2 ≤ (find_packet_go buffer).length := find_packet_go_length h
    rw [find_packet_eq]
    rcases hgo : find_packet_go buffer with _ | ⟨a, _ | ⟨b, t⟩⟩
    · rw [hgo] at hlen; simp at hlen
    · rw [hgo] at hlen; simp at hlen
    · have hv : valid_packet (a :: b :: t) = some ((b &&& 0x01) == 0x01) := rfl
      rw [hv]
      cases hb : ((b &&& 0x01) == 0x01) <;> simp

/-- Witness for C9 at the empty buffer and a 2-byte buffer. -/
theorem C9_witness :
    find_packet [] = .outOfBounds ∧ find_packet [0, 1] ≠ .outOfBounds :=
  ⟨(C9_find_packet_panic_bounds []).1 (by decide),
    (C9_find_packet_panic_bounds [0, 1]).2 (by decide)⟩

/-! ### Chunked decoding (C4) -/

lemma chunks8Go_join : ∀ (fuel : Nat) (l : List Nat), l.length ≤ fuel →
    (chunks8Go fuel l).flatten = l := by
  intro fuel
  induction fuel with
  | zero =>
    intro l h
    have hl : l = [] := List.eq_nil_of_length_eq_zero (by omega)
    rw [hl]
    rfl
  | succ n ih =>
    intro l h
    cases l with
    | nil => rfl
    | cons x xs =>
      simp only [chunks8Go, List.flatten_cons]
      rw [ih ((x :: xs).drop 8) (by simp at h ⊢; omega)]
      exact List.take_append_drop 8 (x :: xs)

lemma chunks8_join (l : List Nat) : (chunks8 l).flatten = l :=
  chunks8Go_join l.length l (le_refl _)

lemma chunks8Go_mem_length : ∀ (fuel : Nat) (l c : List Nat),
    c ∈ chunks8Go fuel l → c.length ≤ 8 := by
  intro fuel
  induction fuel with
  | zero => intro l c h; simp [chunks8Go] at h
  | succ n ih =>
    intro l c h
    cases l with
    | nil => simp [chunks8Go] at h
    | cons x xs =>
      simp only [chunks8Go, List.mem_cons] at h
      rcases h with h | h
      · rw [h, List.length_take]
        omega
      · exact ih _ _ h

/-- The per-chunk test of the decoding loop is the spec-side test: full
8-byte length together with the framing marker. -/
lemma chunk_pred_eq (c : List Nat) :
    (c.length == 8 && (valid_packet c == some true)) =
      (c.length == 8 && markerAt c 0) := by
  cases hl : (c.length == 8)
  · simp
  · have h2 : 2 ≤ c.length := by
      have hc : c.length = 8 := by simpa using hl
      omega
    simp only [Bool.true_and]
    rw [valid_packet_eq_markerAt h2]
    cases markerAt c 0 <;> simp

lemma decode_chunks_eq_filter_map (l : List Nat) :
    decode_chunks l =
      ((chunks8 l).filter fun c => c.length == 8 && markerAt c 0).map read_packet := by
  unfold decode_chunks
  induction chunks8 l with
  | nil => rfl
  | cons c cs ih =>
    rw [List.filterMap_cons, List.filter_cons]
    rw [chunk_pred_eq c]
    cases hc : (c.length == 8 && markerAt c 0)
    · simpa using ih
    · simpa using ih

/-- The end-to-end scenario buffer from the spec (§8): 8 stale bytes
without marker, a valid chunk encoding a near-zero sample, a valid chunk
with the `0x7FFFFFFF` pattern, and a marker-less (invalid) chunk. -/
def scenarioBuffer : List Nat :=
  [0, 0, 0, 0, 0, 0, 0, 0] ++
    [0x00, 0x01, 0x00, 0x00, 0x00, 0x01, 0x00, 0x00] ++
    [0xff, 0xff, 0xff, 0x7f, 0xff, 0xff, 0xff, 0x7f] ++
    [0, 0, 0, 0, 0, 0, 0, 0]

lemma read_packet_chunk1 :
    read_packet [0x00, 0x01, 0x00, 0x00, 0x00, 0x01, 0x00, 0x00] =
      ((256 : ℚ) / BASE, (256 : ℚ) / BASE) := by
  have e1 : read_u32 (([0x00, 0x01, 0x00, 0x00, 0x00, 0x01, 0x00, 0x00] :
      List Nat).take 4) = 256 := by decide
  have e2 : read_u32 ((([0x00, 0x01, 0x00, 0x00, 0x00, 0x01, 0x00, 0x00] :
      List Nat).drop 4).take 4) = 256 := by decide
  have e3 : fWord 256 = 256 := by decide
  simp only [read_packet, e1, e2, f, e3]
  norm_num

lemma read_packet_chunk2 :
    read_packet [0xff, 0xff, 0xff, 0x7f, 0xff, 0xff, 0xff, 0x7f] =
      ((4294901758 : ℚ) / BASE, (4294901758 : ℚ) / BASE) := by
  have e1 : read_u32 (([0xff, 0xff, 0xff, 0x7f, 0xff, 0xff, 0xff, 0x7f] :
      List Nat).take 4) = 2147483647 := by decide
  have e2 : read_u32 ((([0xff, 0xff, 0xff, 0x7f, 0xff, 0xff, 0xff, 0x7f] :
      List Nat).drop 4).take 4) = 2147483647 := by decide
  have e3 : fWord 2147483647 = 4294901758 := by decide
  simp only [read_packet, e1, e2, f, e3]
  norm_num

/-- C4: after synchronization the decoder partitions the remainder into
consecutive 8-byte chunks (the chunks rebuild the remainder, none is
longer than 8), emits exactly one sample per chunk that still carries the
framing marker, in chunk order, silently dropping marker-less chunks and
the short trailing chunk; on the spec scenario buffer (8 stale bytes, two
valid chunks, one invalid chunk) the callback emits exactly 2 samples,
the first one `256 / 2 ^ 32 ≈ 0` in both components. -/
theorem C4_chunked_decoding :
    (∀ l : List Nat, (chunks8 l).flatten = l) ∧
    (∀ l c : List Nat, c ∈ chunks8 l → c.length ≤ 8) ∧
    (∀ l : List Nat, decode_chunks l =
      ((chunks8 l).filter fun c => c.length == 8 && markerAt c 0).map read_packet) ∧
    Receiver.callback ⟨true, false, []⟩ (.ok ()) scenarioBuffer =
      some (⟨true, false,
        [((256 : ℚ) / BASE, (256 : ℚ) / BASE),
          ((4294901758 : ℚ) / BASE, (4294901758 : ℚ) / BASE)]⟩, true) := by
  refine ⟨chunks8_join, fun l c h => chunks8Go_mem_length _ _ _ h,
    decode_chunks_eq_filter_map, ?_⟩
  have hfind : find_packet scenarioBuffer = .ok (scenarioBuffer.drop 8) := by
    decide
  have hfilter : ((chunks8 (scenarioBuffer.drop 8)).filter
      fun c => c.length == 8 && markerAt c 0) =
      [[0x00, 0x01, 0x00, 0x00, 0x00, 0x01, 0x00, 0x00],
        [0xff, 0xff, 0xff, 0x7f, 0xff, 0xff, 0xff, 0x7f]] := by decide
  have hdec : decode_chunks (scenarioBuffer.drop 8) =
      [((256 : ℚ) / BASE, (256 : ℚ) / BASE),
        ((4294901758 : ℚ) / BASE, (4294901758 : ℚ) / BASE)] := by
    rw [decode_chunks_eq_filter_map, hfilter]
    simp [read_packet_chunk1, read_packet_chunk2]
  simp only [Receiver.callback, hfind, hdec]
  rfl

/-- Witness for C4: the first chunk of the synchronized remainder of the
scenario buffer is one of its 8-byte chunks. -/
theorem C4_witness :
    [0x00, 0x01, 0x00, 0x00, 0x00, 0x01, 0x00, 0x00] ∈
      chunks8 (scenarioBuffer.drop 8) ∧
    ([0x00, 0x01, 0x00, 0x00, 0x00, 0x01, 0x00, 0x00] : List Nat).length ≤ 8 :=
  ⟨by decide, C4_chunked_decoding.2.1 (scenarioBuffer.drop 8) _ (by decide)⟩

/-! ### Transfer-error handling in the callback (C3) -/

/-- C3 (amended): every transfer error delivered to the callback other
than the generic `Other` error terminates the capture chain: the callback
clears the `running` flag, leaves the skip flag and the queue untouched,
and returns `false` so the transfer is not resubmitted. The generic
`Other` error is the exception, see the counterexample. -/
theorem C3_errors_terminate (e : RusbError) (he : e ≠ RusbError.Other)
    (s : Receiver) (buffer : List Nat) :
    Receiver.callback s (.error e) buffer =
      some ({ s with running := false }, false) := by
  cases e <;>
    first
      | exact absurd rfl he
      | simp [Receiver.callback]

/-- Witness for C3 at the timeout error. -/
theorem C3_witness :
    RusbError.Timeout ≠ RusbError.Other ∧
    Receiver.callback ⟨true, true, []⟩ (.error .Timeout) [] =
      some (⟨false, true, []⟩, false) :=
  ⟨by decide, C3_errors_terminate .Timeout (by decide) ⟨true, true, []⟩ []⟩

/-- Counterexample for C3 as stated: the generic-other error
(`rusb::Error::Other`, produced by `callback_wrapper` for the
`LIBUSB_TRANSFER_ERROR` completion status) is matched as a success in
`Receiver::callback`: with `running` set and the skip flag clear, the
callback leaves `running` true, decodes the buffer, and returns `true`,
resubmitting the transfer instead of terminating the chain. -/
theorem C3_counterexample :
    Receiver.callback ⟨true, false, []⟩ (.error .Other) [0, 0] =
      some (⟨true, false, []⟩, true) := by
  rfl

/-! ### Queue (C5, C6) -/

/-- C5 (amended): `Queue::close` is idempotent (a second close leaves the
state unchanged) and sets the closed flag, but performs no condvar
notification, so consumers blocked in the `wait_timeout_while` of
`dequeue` are not woken by `close`; after closure the wait predicate is
false, and a dequeue on the empty closed queue yields `none` (once its
timeout wakes it). -/
theorem C5_close {α : Type} (s : Queue.State α) :
    (Queue.close (Queue.close s).1).1 = (Queue.close s).1 ∧
    (Queue.close s).1.closed = true ∧
    (Queue.close s).2 = false ∧
    Queue.dequeue_waits (Queue.close s).1 = false ∧
    (s.items = [] → (Queue.dequeue (Queue.close s).1).1 = none) := by
  refine ⟨rfl, rfl, rfl, ?_, ?_⟩
  · simp [Queue.close, Queue.dequeue_waits]
  · intro h
    simp [Queue.close, Queue.dequeue, h]

/-- Witness for C5 at the open empty queue over `Nat`. -/
theorem C5_witness :
    (⟨false, []⟩ : Queue.State Nat).items = [] ∧
    (Queue.dequeue (Queue.close (⟨false, []⟩ : Queue.State Nat)).1).1 = none :=
  ⟨rfl, (C5_close (⟨false, []⟩ : Queue.State Nat)).2.2.2.2 rfl⟩

/-- Counterexample for C5 as stated: closing the open empty queue sets the
flag but performs no condvar notification (second component `false`),
while waking a consumer blocked in `wait_timeout_while` before its
timeout requires one — `close` does not wake blocked consumers, they
observe closure only when their full timeout elapses. -/
theorem C5_counterexample :
    Queue.close (⟨false, []⟩ : Queue.State Nat) = (⟨true, []⟩, false) := by
  rfl

lemma enqueueAll_items {α : Type} : ∀ (l : List α) (s : Queue.State α),
    (Queue.enqueueAll s l).items = s.items ++ l := by
  intro l
  induction l with
  | nil => intro s; simp [Queue.enqueueAll]
  | cons x xs ih =>
    intro s
    simp only [Queue.enqueueAll, List.foldl_cons] at ih ⊢
    rw [ih]
    simp [Queue.enqueue]

lemma dequeueN_items {α : Type} : ∀ (m : List α) (s : Queue.State α),
    s.items = m → (Queue.dequeueN s m.length).1 = m.map some := by
  intro m
  induction m with
  | nil => intro s h; rfl
  | cons x xs ih =>
    intro s h
    simp only [List.length_cons, Queue.dequeueN, Queue.dequeue, h,
      List.head?_cons, List.tail_cons]
    rw [ih ⟨s.closed, xs⟩ rfl]
    simp

/-- C6: FIFO order — enqueuing `E1..En` into a queue with no buffered
items and then dequeuing `n` times yields exactly `E1..En` in enqueue
order; moreover a dequeue yields the front item whenever one is buffered
and `none` when none is (the closed-and-empty and timed-out wakeups both
pop from the empty deque). -/
theorem C6_fifo {α : Type} (l : List α) (s : Queue.State α)
    (hs : s.items = []) :
    (Queue.dequeueN (Queue.enqueueAll s l) l.length).1 = l.map some ∧
    (∀ t : Queue.State α, t.items = [] → (Queue.dequeue t).1 = none) ∧
    (∀ (t : Queue.State α) (x : α) (xs : List α), t.items = x :: xs →
      (Queue.dequeue t).1 = some x) := by
  refine ⟨?_, ?_, ?_⟩
  · exact dequeueN_items l _ (by rw [enqueueAll_items, hs]; simp)
  · intro t ht
    simp [Queue.dequeue, ht]
  · intro t x xs ht
    simp [Queue.dequeue, ht]

/-- Witness for C6: three enqueued numbers come out in order. -/
theorem C6_witness :
    ((⟨false, []⟩ : Queue.State Nat).items = []) ∧
    (Queue.dequeueN (Queue.enqueueAll (⟨false, []⟩ : Queue.State Nat)
      [3, 1, 2]) 3).1 = [some 3, some 1, some 2] :=
  ⟨rfl, (C6_fifo [3, 1, 2] (⟨false, []⟩ : Queue.State Nat) rfl).1⟩

/-! ### submit_iso preconditions (C7) -/

/-- C7: `submit_iso` rejects a non-IN endpoint with an invalid-parameter
error before reaching any native libusb call, and likewise rejects a
callback buffer shorter than `packet_len * (num_packets + 1)`. -/
theorem C7_submit_iso_preconditions (endpoint num_packets packet_len
    buffer_len : Nat) (nativeResult : Except RusbError Unit) :
    (endpoint &&& Usb.LIBUSB_ENDPOINT_DIR_MASK ≠ Usb.LIBUSB_ENDPOINT_IN →
      Usb.submit_iso endpoint num_packets packet_len buffer_len nativeResult =
        (.error .InvalidParam, false)) ∧
    (buffer_len < packet_len * (num_packets + 1) →
      Usb.submit_iso endpoint num_packets packet_len buffer_len nativeResult =
        (.error .InvalidParam, false)) := by
  constructor
  · intro h
    simp [Usb.submit_iso, h]
  · intro h
    unfold Usb.submit_iso
    split
    · rfl
    · rw [if_pos (by ring_nf; ring_nf at h; omega)]

/-- Witness for C7: an OUT endpoint (0x02) is rejected, and an IN endpoint
(0x86) with a 100-byte buffer for 2 packets of 1536 bytes is rejected. -/
theorem C7_witness :
    ((0x02 &&& Usb.LIBUSB_ENDPOINT_DIR_MASK ≠ Usb.LIBUSB_ENDPOINT_IN) ∧
      Usb.submit_iso 0x02 2 1536 4608 (.ok ()) = (.error .InvalidParam, false)) ∧
    ((100 < 1536 * (2 + 1)) ∧
      Usb.submit_iso 0x86 2 1536 100 (.ok ()) = (.error .InvalidParam, false)) :=
  ⟨⟨by decide, (C7_submit_iso_preconditions 0x02 2 1536 4608 (.ok ())).1 (by decide)⟩,
    ⟨by decide, (C7_submit_iso_preconditions 0x86 2 1536 100 (.ok ())).2 (by decide)⟩⟩

/-! ### Double start (C8) -/

/-- C8: starting from the idle state, a first `start` (whatever the
outcomes of its control write and its transfer submission) leaves the
`running` flag set, so a second `start` without an intervening `stop`
fails with the already-running error, performs no control-channel write
(no second capture-start command), and leaves the state unchanged; the
first call wrote the capture-start command exactly once. -/
theorem C8_double_start (s : Receiver)
    (w1 r1 w2 r2 : Except RusbError Unit) (hs : s.running = false) :
    (Receiver.start (Receiver.start s w1 r1).1 w2 r2).2.1 =
      .error .alreadyRunning ∧
    (Receiver.start (Receiver.start s w1 r1).1 w2 r2).2.2 = [] ∧
    (Receiver.start s w1 r1).2.2 = [START_CAPTURE] ∧
    (Receiver.start (Receiver.start s w1 r1).1 w2 r2).1 =
      (Receiver.start s w1 r1).1 := by
  have h1 : (Receiver.start s w1 r1).1.running = true := by
    cases w1 <;> cases r1 <;> simp [Receiver.start, hs]
  have h2 : (Receiver.start s w1 r1).2.2 = [START_CAPTURE] := by
    cases w1 <;> cases r1 <;> simp [Receiver.start, hs]
  have hsecond : Receiver.start (Receiver.start s w1 r1).1 w2 r2 =
      ((Receiver.start s w1 r1).1, .error .alreadyRunning, []) := by
    generalize hq : (Receiver.start s w1 r1).1 = s1 at h1 ⊢
    unfold Receiver.start
    rw [if_neg (by simp [h1])]
  exact ⟨by rw [hsecond], by rw [hsecond], h2, by rw [hsecond]⟩

/-- Witness for C8 with both native calls of the first start succeeding. -/
theorem C8_witness :
    ((⟨false, true, []⟩ : Receiver).running = false) ∧
    (Receiver.start (Receiver.start ⟨false, true, []⟩ (.ok ()) (.ok ())).1
      (.ok ()) (.ok ())).2.1 = .error .alreadyRunning :=
  ⟨rfl, (C8_double_start ⟨false, true, []⟩ (.ok ()) (.ok ()) (.ok ()) (.ok ())
    rfl).1⟩

end AR2300
